import Mathlib

/-!
Verification of the cross-chain feature-aggregation component
(`src/components/aggregate_features_across_chains.py`) of the
vertex-ai-alphafold-inference-pipeline repository.

The component is shallowly embedded: its straight-line control flow is a
Lean function from an explicit environment (chain list, path manifest,
blob store contents, upload outcome) to `Except`, with the external
AlphaFold library routines (`convert_monomer_features`,
`add_assembly_features`, `pair_and_merge`, `pad_msa`) abstracted as
function-valued parameters, exactly as the component treats them (opaque
calls).  Python string, path and dict semantics used by the component are
modelled faithfully.
-/

set_option autoImplicit false

namespace AggregateFeatures

/-- A per-chain feature record.  The component treats records as opaque
payloads handed to external routines; for the claims we model the fields
the spec talks about: the alignment matrix (`msa`, whose row count is the
alignment depth), a per-residue encoding (`aatype`), and a scalar
alignment count. -/
structure FeatRec where
  msa : List (List Nat)
  aatype : List Nat
  num_alignments : Nat
  deriving Repr, DecidableEq, Inhabited

/-- Alignment depth of a record: the number of rows of its alignment
matrix. -/
def FeatRec.depth (r : FeatRec) : Nat := r.msa.length

/-- The external AlphaFold library routines the component calls.  They are
abstract: the component invokes them as black boxes. -/
structure Externals where
  convert_monomer_features : FeatRec → String → FeatRec
  add_assembly_features : List (String × FeatRec) → List (String × FeatRec)
  pair_and_merge : List (String × FeatRec) → FeatRec
  pad_msa : FeatRec → Nat → FeatRec

/-- Environment of one run: the `chain_info` metadata (chain ids), the
parsed path manifest (`chains` mapping and optional `full_protein`
override), the GCS blob store (bucket name and blob path to stored
record), and whether the final upload raises (with the exception text). -/
structure Env where
  chain_info : List String
  paths_info_chains : List (String × String)
  full_protein : Option String
  blobs : String → String → Option FeatRec
  upload_error : Option String

/-- Errors raised by the component, mirroring the Python exception types
and messages.  Returning `.error` models the Python raise: control leaves
the function before any output blob is uploaded or any artifact
uri/metadata is set. -/
inductive AggError where
  | valueError (msg : String)
  | fileNotFound (msg : String)
  | runtimeError (msg : String)
  deriving Repr, DecidableEq

/-- The observable outcome of a successful run: the merged record, the
destination of the uploaded blob, and the artifact uri and metadata the
component sets. -/
structure AggResult where
  np_example : FeatRec
  written_bucket : String
  written_blob : String
  uri : String
  meta_is_homomer_or_monomer : String
  meta_num_chains : Nat
  deriving Repr, DecidableEq

/-- Python `str.replace('gs://', '')` on the character list: delete the
non-overlapping occurrences of `gs://`, scanning left to right. -/
def stripGsAux : List Char → List Char
  | 'g' :: 's' :: ':' :: '/' :: '/' :: rest => stripGsAux rest
  | c :: rest => c :: stripGsAux rest
  | [] => []

/-- Python `path.replace('gs://', '')`. -/
def stripGs (s : String) : String := ⟨stripGsAux s.data⟩

/-- Python `str.split('/')` on the character list: `''` splits to `['']`,
a trailing separator yields a trailing empty field. -/
def splitSlash : List Char → List (List Char)
  | [] => [[]]
  | '/' :: rest => [] :: splitSlash rest
  | c :: rest =>
      match splitSlash rest with
      | [] => [[c]]
      | g :: gs => (c :: g) :: gs

/-- Python `path.split('/')`. -/
def splitOnSlash (s : String) : List String := (splitSlash s.data).map String.mk

/-- Python `path.replace('gs://', '').split('/')[0]`: the bucket name. -/
def bucketOf (p : String) : String := (splitOnSlash (stripGs p)).head!

/-- Python `'/'.join(path.replace('gs://', '').split('/')[1:])`: the blob
path inside the bucket, without the trailing file name. -/
def blobDirOf (p : String) : String :=
  String.intercalate "/" ((splitOnSlash (stripGs p)).drop 1)

/-- The blob path the component reads a chain's features from:
`blob_path = '/'.join(...[1:]) + '/features.pkl'` (plain string
concatenation in the source). -/
def chainFeaturesBlob (p : String) : String := blobDirOf p ++ "/features.pkl"

/-- Whether a path ends in the separator (used by the `os.path.join`
model). -/
def endsWithSlash (s : String) : Bool :=
  match s.data.getLast? with
  | some '/' => true
  | _ => false

/-- Python `os.path.join a b` for the non-absolute second components used
here. -/
def pathJoin (a b : String) : String :=
  if a = "" then b else if endsWithSlash a then a ++ b else a ++ "/" ++ b

/-- Python dict assignment `d[k] = v`: an existing key keeps its position
and gets the new value; a new key is appended. -/
def dictInsert (d : List (String × FeatRec)) (k : String) (v : FeatRec) :
    List (String × FeatRec) :=
  match d with
  | [] => [(k, v)]
  | (k', v') :: rest =>
      if k' = k then (k', v) :: rest else (k', v') :: dictInsert rest k v

/-- The per-chain loading loop (source lines 54-93): for each chain id in
`chain_info`, look its prefix up in the manifest's `chains` mapping
(raising `ValueError` when absent), check the blob at the derived bucket
and path exists (raising `FileNotFoundError` with the full path when not),
download it, convert it with `convert_monomer_features`, and store it into
the `all_chain_features` dict. -/
def loadChains (ext : Externals) (env : Env) :
    List String → List (String × FeatRec) →
    Except AggError (List (String × FeatRec))
  | [], acc => .ok acc
  | cid :: rest, acc =>
      match List.lookup cid env.paths_info_chains with
      | none => .error (.valueError ("No path information found for chain " ++ cid))
      | some features_path =>
          match env.blobs (bucketOf features_path) (chainFeaturesBlob features_path) with
          | none =>
              .error (.fileNotFound
                ("Features file not found in GCS for chain " ++ cid ++ ": gs://"
                  ++ bucketOf features_path ++ "/" ++ chainFeaturesBlob features_path))
          | some f =>
              loadChains ext env rest
                (dictInsert acc cid (ext.convert_monomer_features f cid))

/-- Source lines 125-127: the output prefix is the manifest's
`full_protein` field when present, otherwise the caller-supplied
`output_features_path`. -/
def effectiveOutputPath (env : Env) (output_features_path : String) : String :=
  match env.full_protein with
  | some p => p
  | none => output_features_path

/-- The component `aggregate_features_across_chains`, embedded from the
source.  After the loading loop, `add_assembly_features` runs on the whole
dict; then the branch at line 102 picks the single chain's record (when
`is_homomer_or_monomer == 'true'` and the dict has exactly one entry) or
pairs, merges and pads to 512; then the merged record is uploaded to
`<output-prefix>/all_chain_features.pkl` (a failing upload raising a
wrapped `RuntimeError`), and the artifact uri and metadata are set. -/
def aggregate_features_across_chains (ext : Externals) (env : Env)
    (is_homomer_or_monomer : String) (output_features_path : String) :
    Except AggError AggResult :=
  match loadChains ext env env.chain_info [] with
  | .error e => .error e
  | .ok loaded =>
      let all_chain_features := ext.add_assembly_features loaded
      let np_example :=
        if is_homomer_or_monomer = "true" ∧ all_chain_features.length = 1 then
          all_chain_features.head!.2
        else
          ext.pad_msa (ext.pair_and_merge all_chain_features) 512
      let outPath := effectiveOutputPath env output_features_path
      match env.upload_error with
      | some e =>
          .error (.runtimeError
            ("Failed to save features to GCS at " ++ outPath ++ ": " ++ e))
      | none =>
          .ok { np_example := np_example
                written_bucket := bucketOf outPath
                written_blob := pathJoin (blobDirOf outPath) "all_chain_features.pkl"
                uri := pathJoin outPath "all_chain_features.pkl"
                meta_is_homomer_or_monomer := is_homomer_or_monomer
                meta_num_chains := all_chain_features.length }

instance {α β : Type} [DecidableEq α] [DecidableEq β] : DecidableEq (Except α β) :=
  fun a b =>
    match a, b with
    | .error x, .error y => decidable_of_iff (x = y) (by simp)
    | .ok x, .ok y => decidable_of_iff (x = y) (by simp)
    | .error _, .ok _ => isFalse (by simp)
    | .ok _, .error _ => isFalse (by simp)

/-- The keys of a dict, in insertion order. -/
def keysOf (d : List (String × FeatRec)) : List String := d.map Prod.fst

/-! ### Serialization model

The component persists records with `pickle.dump(..., protocol=4)` and
reloads them with `pickle.load` (source lines 74-77 and 137-140).  Pickle
is external library code; per the spec it is a lossless serialization for
the supported numeric/array field types.  Modelled from the spec: a
length-prefixed byte encoding of a feature record, with its decoder. -/

/-- Length-prefixed encoding of one numeric row. -/
def encRow (l : List Nat) : List Nat := l.length :: l

/-- Decoder for `encRow`: reads a length then that many entries, returning
the row and the remaining bytes. -/
def decRow (bytes : List Nat) : Option (List Nat × List Nat) :=
  match bytes with
  | [] => none
  | n :: rest => if n ≤ rest.length then some (rest.take n, rest.drop n) else none

/-- Concatenated encoding of a list of rows. -/
def encRows (ll : List (List Nat)) : List Nat := (ll.map encRow).flatten

/-- Decoder for `encRows`: reads the given number of rows. -/
def decRows : Nat → List Nat → Option (List (List Nat) × List Nat)
  | 0, rest => some ([], rest)
  | n + 1, bytes =>
      match decRow bytes with
      | none => none
      | some (row, rest) =>
          match decRows n rest with
          | none => none
          | some (rows, rest') => some (row :: rows, rest')

/-- Modelled from the spec: serialization of a feature record to a byte
stream (the role `pickle.dump` plays in the component). -/
def serializeFeatRec (r : FeatRec) : List Nat :=
  encRow r.aatype ++ r.msa.length :: (encRows r.msa ++ [r.num_alignments])

/-- Modelled from the spec: deserialization of a feature record from a
byte stream (the role `pickle.load` plays in the component). -/
def deserializeFeatRec (bytes : List Nat) : Option FeatRec :=
  match decRow bytes with
  | none => none
  | some (aat, rest) =>
      match rest with
      | [] => none
      | n :: rest2 =>
          match decRows n rest2 with
          | none => none
          | some (rows, rest3) =>
              match rest3 with
              | [na] => some { msa := rows, aatype := aat, num_alignments := na }
              | _ => none

/-- Writing a record to storage and immediately re-reading it: the bytes
uploaded are the serialized record, and the read deserializes them. -/
def writeThenRead (r : FeatRec) : Option FeatRec :=
  deserializeFeatRec (serializeFeatRec r)

/-! ### Concrete instantiations used by the witnesses -/

/-- A concrete conversion routine for witnesses: tags the record with the
chain id's length. -/
def sampleConvert (f : FeatRec) (cid : String) : FeatRec :=
  { f with num_alignments := f.num_alignments + cid.length }

/-- A concrete pairing routine for witnesses: stacks all alignment rows. -/
def samplePair (l : List (String × FeatRec)) : FeatRec :=
  { msa := (l.map (fun kv => kv.2.msa)).flatten
    aatype := (l.map (fun kv => kv.2.aatype)).flatten
    num_alignments := l.length }

/-- A concrete padding routine for witnesses, honouring the external
routine's contract: truncate or zero-fill the alignment to exactly the
requested depth. -/
def samplePad (r : FeatRec) (n : Nat) : FeatRec :=
  { r with msa := r.msa.take n ++ List.replicate (n - r.msa.length) [] }

/-- A concrete external-routine bundle for witnesses. -/
def sampleExt : Externals where
  convert_monomer_features := sampleConvert
  add_assembly_features := fun l => l
  pair_and_merge := samplePair
  pad_msa := samplePad

/-- A concrete single-chain record. -/
def recA : FeatRec := { msa := [[1, 2], [3, 4]], aatype := [0, 1], num_alignments := 2 }

/-- A second concrete record, of a different alignment depth. -/
def recB : FeatRec := { msa := [[5, 6]], aatype := [2, 3], num_alignments := 1 }

/-- A concrete single-chain environment. -/
def env1 : Env where
  chain_info := ["A"]
  paths_info_chains := [("A", "gs://bkt/runs/chainA")]
  full_protein := none
  blobs := fun b p => if b = "bkt" ∧ p = "runs/chainA/features.pkl" then some recA else none
  upload_error := none

/-- A concrete two-chain environment with a `full_protein` override. -/
def env2 : Env where
  chain_info := ["A", "B"]
  paths_info_chains := [("A", "gs://bkt/runs/chainA"), ("B", "gs://bkt/runs/chainB")]
  full_protein := some "gs://bkt/runs/full"
  blobs := fun b p =>
    if b = "bkt" ∧ p = "runs/chainA/features.pkl" then some recA
    else if b = "bkt" ∧ p = "runs/chainB/features.pkl" then some recB
    else none
  upload_error := none

/-- A concrete environment whose manifest lacks an entry for listed chain
`A`. -/
def env3 : Env where
  chain_info := ["A", "B"]
  paths_info_chains := [("B", "gs://bkt/runs/chainB")]
  full_protein := none
  blobs := fun b pth =>
    if b = "bkt" ∧ pth = "runs/chainB/features.pkl" then some recB else none
  upload_error := none

/-- A concrete environment whose storage holds no blob for listed chain
`A`. -/
def env4 : Env where
  chain_info := ["A"]
  paths_info_chains := [("A", "gs://bkt/runs/chainA")]
  full_protein := none
  blobs := fun _ _ => none
  upload_error := none

/-- A concrete environment whose final upload fails. -/
def env5 : Env := { env2 with upload_error := some "connection reset" }

/-- The dict the loading loop builds on `env2` with `sampleExt`. -/
def loadedAB : List (String × FeatRec) :=
  [("A", { msa := [[1, 2], [3, 4]], aatype := [0, 1], num_alignments := 3 }),
   ("B", { msa := [[5, 6]], aatype := [2, 3], num_alignments := 2 })]

/-! ### Helper lemmas -/

theorem decRow_encRow (l rest : List Nat) : decRow (encRow l ++ rest) = some (l, rest) := by
  simp [encRow, decRow]

theorem decRows_encRows (ll : List (List Nat)) (rest : List Nat) :
    decRows ll.length (encRows ll ++ rest) = some (ll, rest) := by
  induction ll generalizing rest with
  | nil => simp [encRows, decRows]
  | cons row tl ih =>
      simp [encRows, decRows, List.append_assoc, decRow_encRow]
      have h := ih rest
      simp [encRows] at h
      simp [h]

theorem dictInsert_of_not_mem (d : List (String × FeatRec)) (k : String) (v : FeatRec)
    (h : k ∉ keysOf d) : dictInsert d k v = d ++ [(k, v)] := by
  induction d with
  | nil => simp [dictInsert]
  | cons kv rest ih =>
      obtain ⟨k', v'⟩ := kv
      simp [keysOf] at h
      simp [dictInsert, Ne.symm h.1, ih (by simp [keysOf, h.2])]

theorem loadChains_length (ext : Externals) (env : Env) (cids : List String) :
    ∀ acc loaded, cids.Nodup → (∀ c ∈ cids, c ∉ keysOf acc) →
    loadChains ext env cids acc = .ok loaded →
    loaded.length = acc.length + cids.length := by
  induction cids with
  | nil =>
      intro acc loaded _ _ h
      simp [loadChains] at h
      simp [← h]
  | cons cid rest ih =>
      intro acc loaded hnd hfresh h
      cases hlk : List.lookup cid env.paths_info_chains with
      | none => simp [loadChains, hlk] at h
      | some p =>
          cases hb : env.blobs (bucketOf p) (chainFeaturesBlob p) with
          | none => simp [loadChains, hlk, hb] at h
          | some f =>
              simp only [loadChains, hlk, hb] at h
              have hfc : cid ∉ keysOf acc := hfresh cid (by simp)
              rw [dictInsert_of_not_mem acc cid _ hfc] at h
              have hnd' : rest.Nodup := (List.nodup_cons.mp hnd).2
              have hcid : cid ∉ rest := (List.nodup_cons.mp hnd).1
              have hfresh' : ∀ c ∈ rest,
                  c ∉ keysOf (acc ++ [(cid, ext.convert_monomer_features f cid)]) := by
                intro c hc hmem
                rw [keysOf, List.map_append] at hmem
                rcases List.mem_append.mp hmem with hm | hm
                · exact hfresh c (by simp [hc]) hm
                · simp at hm
                  exact hcid (hm ▸ hc)
              have := ih _ loaded hnd' hfresh' h
              simp only [List.length_append, List.length_cons, List.length_nil] at this
              simp only [List.length_cons]
              omega

theorem loadChains_blobs_congr (ext : Externals) (env env' : Env)
    (hmap : env'.paths_info_chains = env.paths_info_chains) (cids : List String) :
    ∀ acc,
    (∀ c ∈ cids, ∀ p, List.lookup c env.paths_info_chains = some p →
        env'.blobs (bucketOf p) (chainFeaturesBlob p) =
          env.blobs (bucketOf p) (chainFeaturesBlob p)) →
    loadChains ext env' cids acc = loadChains ext env cids acc := by
  induction cids with
  | nil => intro acc _; simp [loadChains]
  | cons cid rest ih =>
      intro acc hag
      cases hlk : List.lookup cid env.paths_info_chains with
      | none => simp [loadChains, hmap, hlk]
      | some p =>
          have hb := hag cid (by simp) p hlk
          cases hbe : env.blobs (bucketOf p) (chainFeaturesBlob p) with
          | none =>
              rw [hbe] at hb
              simp [loadChains, hmap, hlk, hbe, hb]
          | some f =>
              rw [hbe] at hb
              simp only [loadChains, hmap, hlk, hbe, hb]
              exact ih _ (fun c hc => hag c (by simp [hc]))

theorem loadChains_skip (ext : Externals) (env : Env) (pre rest : List String) :
    ∀ acc,
    (∀ c' ∈ pre, ∃ p f, List.lookup c' env.paths_info_chains = some p ∧
        env.blobs (bucketOf p) (chainFeaturesBlob p) = some f) →
    ∃ acc', loadChains ext env (pre ++ rest) acc = loadChains ext env rest acc' := by
  induction pre with
  | nil => intro acc _; exact ⟨acc, rfl⟩
  | cons c pre ih =>
      intro acc hpre
      obtain ⟨p, f, hlk, hb⟩ := hpre c (by simp)
      simp only [List.cons_append, loadChains, hlk, hb]
      exact ih _ (fun c' hc' => hpre c' (by simp [hc']))

theorem loadChains_convert_congr (ext ext' : Externals) (env : Env)
    (hconv : ext'.convert_monomer_features = ext.convert_monomer_features)
    (cids : List String) :
    ∀ acc, loadChains ext' env cids acc = loadChains ext env cids acc := by
  induction cids with
  | nil => intro acc; simp [loadChains]
  | cons cid rest ih =>
      intro acc
      cases hlk : List.lookup cid env.paths_info_chains with
      | none => simp [loadChains, hlk]
      | some p =>
          cases hb : env.blobs (bucketOf p) (chainFeaturesBlob p) with
          | none => simp [loadChains, hlk, hb]
          | some f =>
              simp only [loadChains, hlk, hb, hconv]
              exact ih _

theorem keysOf_singleton (d : List (String × FeatRec)) (c : String) (h : keysOf d = [c]) :
    ∃ g, d = [(c, g)] := by
  match d with
  | [] => simp [keysOf] at h
  | [(k, v)] =>
      simp [keysOf] at h
      exact ⟨v, by simp [h]⟩
  | (k1, v1) :: (k2, v2) :: t => simp [keysOf] at h

theorem aggregate_ok_shape (ext : Externals) (env : Env) (flag out : String)
    (loaded : List (String × FeatRec))
    (hload : loadChains ext env env.chain_info [] = .ok loaded)
    (hup : env.upload_error = none) :
    aggregate_features_across_chains ext env flag out = .ok
      { np_example :=
          if flag = "true" ∧ (ext.add_assembly_features loaded).length = 1 then
            (ext.add_assembly_features loaded).head!.2
          else
            ext.pad_msa (ext.pair_and_merge (ext.add_assembly_features loaded)) 512
        written_bucket := bucketOf (effectiveOutputPath env out)
        written_blob := pathJoin (blobDirOf (effectiveOutputPath env out)) "all_chain_features.pkl"
        uri := pathJoin (effectiveOutputPath env out) "all_chain_features.pkl"
        meta_is_homomer_or_monomer := flag
        meta_num_chains := (ext.add_assembly_features loaded).length } := by
  simp [aggregate_features_across_chains, hload, hup]

theorem aggregate_load_error (ext : Externals) (env : Env) (flag out : String)
    (e : AggError) (hload : loadChains ext env env.chain_info [] = .error e) :
    aggregate_features_across_chains ext env flag out = .error e := by
  simp [aggregate_features_across_chains, hload]

theorem samplePad_depth (r : FeatRec) (n : Nat) : (samplePad r n).depth = n := by
  simp [samplePad, FeatRec.depth]
  omega

/-! ### Claim theorems -/

/-- C1: with the homomer/monomer flag set (the string `true`) and exactly
one chain in the chain-info list, the merged record the component writes
is exactly that chain's converted record (after `convert_monomer_features`
and `add_assembly_features`), and the run's outcome is unchanged under any
replacement of the pairing and padding routines — no `pair_and_merge` (or
padding) is applied to it. -/
theorem agg_single_chain_homomer_unpaired
    (ext : Externals) (env : Env) (out c p : String) (f : FeatRec)
    (hinfo : env.chain_info = [c])
    (hkeys : ∀ l, keysOf (ext.add_assembly_features l) = keysOf l)
    (hlk : List.lookup c env.paths_info_chains = some p)
    (hb : env.blobs (bucketOf p) (chainFeaturesBlob p) = some f)
    (hup : env.upload_error = none) :
    ∃ g, ext.add_assembly_features [(c, ext.convert_monomer_features f c)] = [(c, g)] ∧
      ∃ r, aggregate_features_across_chains ext env "true" out = .ok r ∧
        r.np_example = g ∧
        ∀ pm pad, aggregate_features_across_chains
            { ext with pair_and_merge := pm, pad_msa := pad } env "true" out = .ok r := by
  have hload : loadChains ext env env.chain_info [] =
      .ok [(c, ext.convert_monomer_features f c)] := by
    rw [hinfo]; simp [loadChains, hlk, hb, dictInsert]
  obtain ⟨g, hg⟩ := keysOf_singleton
    (ext.add_assembly_features [(c, ext.convert_monomer_features f c)]) c
    (by rw [hkeys]; simp [keysOf])
  refine ⟨g, hg, ?_⟩
  have h1 := aggregate_ok_shape ext env "true" out _ hload hup
  rw [hg] at h1
  simp only [List.length_cons, List.length_nil, List.head!, Nat.zero_add,
    and_self, if_true] at h1
  refine ⟨_, h1, rfl, ?_⟩
  intro pm pad
  have hload' : loadChains { ext with pair_and_merge := pm, pad_msa := pad } env
      env.chain_info [] = .ok [(c, ext.convert_monomer_features f c)] := by
    rw [loadChains_convert_congr ext { ext with pair_and_merge := pm, pad_msa := pad } env rfl]
    exact hload
  have h2 := aggregate_ok_shape { ext with pair_and_merge := pm, pad_msa := pad }
      env "true" out _ hload' hup
  dsimp only at h2
  rw [hg] at h2
  simp only [List.length_cons, List.length_nil, List.head!, Nat.zero_add,
    and_self, if_true] at h2
  exact h2

/-- Witness for C1: the single-chain homomer run on a concrete
environment. -/
theorem agg_single_chain_homomer_unpaired_witness :
    ∃ g, sampleExt.add_assembly_features
        [("A", sampleExt.convert_monomer_features recA "A")] = [("A", g)] ∧
      ∃ r, aggregate_features_across_chains sampleExt env1 "true" "gs://out/pfx" = .ok r ∧
        r.np_example = g ∧
        ∀ pm pad, aggregate_features_across_chains
            { sampleExt with pair_and_merge := pm, pad_msa := pad }
            env1 "true" "gs://out/pfx" = .ok r :=
  agg_single_chain_homomer_unpaired sampleExt env1 "gs://out/pfx" "A"
    "gs://bkt/runs/chainA" recA rfl (fun _ => rfl) (by decide) (by decide) rfl

/-- C2: with at least two chains and the homomer/monomer flag unset (any
string other than `true`), the component pairs and merges the per-chain
records and pads the result with `pad_msa` at the fixed constant 512;
under the padding routine's contract (output depth equals the requested
depth) the written record's alignment depth is exactly 512, for every
environment, hence regardless of the input alignment depths. -/
theorem agg_multimer_pair_merge_pad512
    (ext : Externals) (env : Env) (flag out : String)
    (loaded : List (String × FeatRec))
    (hflag : flag ≠ "true") (hlen : 2 ≤ env.chain_info.length)
    (hload : loadChains ext env env.chain_info [] = .ok loaded)
    (hup : env.upload_error = none)
    (hpad : ∀ r n, (ext.pad_msa r n).depth = n) :
    ∃ r, aggregate_features_across_chains ext env flag out = .ok r ∧
      r.np_example = ext.pad_msa (ext.pair_and_merge (ext.add_assembly_features loaded)) 512 ∧
      r.np_example.depth = 512 := by
  have h1 := aggregate_ok_shape ext env flag out loaded hload hup
  rw [if_neg (fun hc => hflag hc.1)] at h1
  exact ⟨_, h1, rfl, hpad _ _⟩

/-- Witness for C2: a concrete two-chain run with depths 2 and 1 ends with
alignment depth exactly 512. -/
theorem agg_multimer_pair_merge_pad512_witness :
    ∃ r, aggregate_features_across_chains sampleExt env2 "false" "gs://out/pfx" = .ok r ∧
      r.np_example = sampleExt.pad_msa
        (sampleExt.pair_and_merge (sampleExt.add_assembly_features loadedAB)) 512 ∧
      r.np_example.depth = 512 :=
  agg_multimer_pair_merge_pad512 sampleExt env2 "false" "gs://out/pfx" loadedAB
    (by decide) (by decide) (by decide) rfl (fun r n => samplePad_depth r n)

/-- C3: when a chain of the chain-info list has no entry in the manifest's
`chains` mapping (and the chains before it load), the component raises a
`ValueError` naming that chain; the `.error` outcome means the raise
happens before the output blob upload and before the artifact uri and
metadata are set. -/
theorem agg_missing_manifest_chain_value_error
    (ext : Externals) (env : Env) (flag out : String)
    (pre : List String) (c : String) (post : List String)
    (hinfo : env.chain_info = pre ++ c :: post)
    (hmiss : List.lookup c env.paths_info_chains = none)
    (hpre : ∀ c' ∈ pre, ∃ p f, List.lookup c' env.paths_info_chains = some p ∧
        env.blobs (bucketOf p) (chainFeaturesBlob p) = some f) :
    aggregate_features_across_chains ext env flag out =
      .error (.valueError ("No path information found for chain " ++ c)) := by
  obtain ⟨acc', hskip⟩ := loadChains_skip ext env pre (c :: post) [] hpre
  have hload : loadChains ext env env.chain_info [] =
      .error (.valueError ("No path information found for chain " ++ c)) := by
    rw [hinfo, hskip]
    simp [loadChains, hmiss]
  exact aggregate_load_error ext env flag out _ hload

/-- Witness for C3: chain `A` is listed but missing from the manifest. -/
theorem agg_missing_manifest_chain_value_error_witness :
    aggregate_features_across_chains sampleExt env3 "false" "gs://out/pfx" =
      .error (.valueError ("No path information found for chain " ++ "A")) :=
  agg_missing_manifest_chain_value_error sampleExt env3 "false" "gs://out/pfx"
    [] "A" ["B"] rfl (by decide) (by simp)

/-- C4: when a listed chain's feature blob is absent from storage at the
path derived from its manifest entry (the prefix after the bucket plus
`/features.pkl`), the component raises a `FileNotFoundError` naming that
chain's full `gs://bucket/path` storage path; the `.error` outcome means
no output artifact is produced. -/
theorem agg_missing_blob_file_not_found
    (ext : Externals) (env : Env) (flag out : String)
    (pre : List String) (c : String) (post : List String) (p : String)
    (hinfo : env.chain_info = pre ++ c :: post)
    (hlk : List.lookup c env.paths_info_chains = some p)
    (hb : env.blobs (bucketOf p) (chainFeaturesBlob p) = none)
    (hpre : ∀ c' ∈ pre, ∃ q f, List.lookup c' env.paths_info_chains = some q ∧
        env.blobs (bucketOf q) (chainFeaturesBlob q) = some f) :
    aggregate_features_across_chains ext env flag out =
      .error (.fileNotFound ("Features file not found in GCS for chain " ++ c ++
        ": gs://" ++ bucketOf p ++ "/" ++ chainFeaturesBlob p)) := by
  obtain ⟨acc', hskip⟩ := loadChains_skip ext env pre (c :: post) [] hpre
  have hload : loadChains ext env env.chain_info [] =
      .error (.fileNotFound ("Features file not found in GCS for chain " ++ c ++
        ": gs://" ++ bucketOf p ++ "/" ++ chainFeaturesBlob p)) := by
    rw [hinfo, hskip]
    simp [loadChains, hlk, hb]
  exact aggregate_load_error ext env flag out _ hload

/-- Witness for C4: chain `A` is mapped but its blob does not exist. -/
theorem agg_missing_blob_file_not_found_witness :
    aggregate_features_across_chains sampleExt env4 "false" "gs://out/pfx" =
      .error (.fileNotFound ("Features file not found in GCS for chain " ++ "A" ++
        ": gs://" ++ bucketOf "gs://bkt/runs/chainA" ++ "/" ++
        chainFeaturesBlob "gs://bkt/runs/chainA")) :=
  agg_missing_blob_file_not_found sampleExt env4 "false" "gs://out/pfx"
    [] "A" [] "gs://bkt/runs/chainA" rfl (by decide) rfl (by simp)

/-- C5: when the final upload fails (for any reason, with any exception
text), the component raises a wrapped `RuntimeError` whose message
contains the effective destination path; the `.error` outcome means the
artifact uri and metadata are not set. -/
theorem agg_upload_failure_runtime_error
    (ext : Externals) (env : Env) (flag out : String)
    (loaded : List (String × FeatRec)) (e : String)
    (hload : loadChains ext env env.chain_info [] = .ok loaded)
    (hup : env.upload_error = some e) :
    aggregate_features_across_chains ext env flag out =
      .error (.runtimeError ("Failed to save features to GCS at " ++
        effectiveOutputPath env out ++ ": " ++ e)) := by
  simp [aggregate_features_across_chains, hload, hup]

/-- Witness for C5: a concrete run whose upload raises. -/
theorem agg_upload_failure_runtime_error_witness :
    aggregate_features_across_chains sampleExt env5 "false" "gs://out/pfx" =
      .error (.runtimeError ("Failed to save features to GCS at " ++
        effectiveOutputPath env5 "gs://out/pfx" ++ ": " ++ "connection reset")) :=
  agg_upload_failure_runtime_error sampleExt env5 "false" "gs://out/pfx" loadedAB
    "connection reset" (by decide) rfl

/-- C6: every successful run sets artifact metadata whose `num_chains`
equals the number of (distinct) chains processed — with no duplicate ids
in the chain-info list, its length — and whose homomer/monomer field is
the flag the component was given. -/
theorem agg_success_metadata
    (ext : Externals) (env : Env) (flag out : String)
    (loaded : List (String × FeatRec))
    (hnd : env.chain_info.Nodup)
    (hkeys : ∀ l, keysOf (ext.add_assembly_features l) = keysOf l)
    (hload : loadChains ext env env.chain_info [] = .ok loaded)
    (hup : env.upload_error = none) :
    ∃ r, aggregate_features_across_chains ext env flag out = .ok r ∧
      r.meta_num_chains = env.chain_info.length ∧
      r.meta_is_homomer_or_monomer = flag := by
  have hlen := loadChains_length ext env env.chain_info [] loaded hnd
    (by simp [keysOf]) hload
  have hasm : (ext.add_assembly_features loaded).length = loaded.length := by
    have h := congrArg List.length (hkeys loaded)
    simpa [keysOf] using h
  refine ⟨_, aggregate_ok_shape ext env flag out loaded hload hup, ?_, rfl⟩
  simp only [hasm, hlen, List.length_nil, Nat.zero_add]

/-- Witness for C6: the two-chain run reports `num_chains = 2` and the
given flag. -/
theorem agg_success_metadata_witness :
    ∃ r, aggregate_features_across_chains sampleExt env2 "false" "gs://out/pfx" = .ok r ∧
      r.meta_num_chains = env2.chain_info.length ∧
      r.meta_is_homomer_or_monomer = "false" :=
  agg_success_metadata sampleExt env2 "false" "gs://out/pfx" loadedAB (by decide)
    (fun _ => rfl) (by decide) rfl

/-- C7: the component reads each chain's blob only at the address derived
from its manifest prefix (`bucket` = first `/`-field after stripping
`gs://`, blob = remaining fields joined plus `/features.pkl`): two blob
stores agreeing at exactly those addresses load identically.  On success
it writes the merged record under
`<output-prefix>/all_chain_features.pkl`, where the output prefix is the
manifest's `full_protein` field when present, otherwise the caller's
output path; the reported artifact uri equals that destination. -/
theorem agg_io_paths
    (ext : Externals) (env : Env) (flag out : String)
    (loaded : List (String × FeatRec))
    (hload : loadChains ext env env.chain_info [] = .ok loaded)
    (hup : env.upload_error = none) :
    ∃ r, aggregate_features_across_chains ext env flag out = .ok r ∧
      r.uri = pathJoin (effectiveOutputPath env out) "all_chain_features.pkl" ∧
      r.written_bucket = bucketOf (effectiveOutputPath env out) ∧
      r.written_blob = pathJoin (blobDirOf (effectiveOutputPath env out)) "all_chain_features.pkl" ∧
      (env.full_protein = none → effectiveOutputPath env out = out) ∧
      (∀ q, env.full_protein = some q → effectiveOutputPath env out = q) ∧
      (∀ env' : Env, env'.chain_info = env.chain_info →
        env'.paths_info_chains = env.paths_info_chains →
        (∀ c ∈ env.chain_info, ∀ p, List.lookup c env.paths_info_chains = some p →
            env'.blobs (bucketOf p) (chainFeaturesBlob p) =
              env.blobs (bucketOf p) (chainFeaturesBlob p)) →
        loadChains ext env' env'.chain_info [] = .ok loaded) := by
  refine ⟨_, aggregate_ok_shape ext env flag out loaded hload hup, rfl, rfl, rfl, ?_, ?_, ?_⟩
  · intro h; simp [effectiveOutputPath, h]
  · intro q h; simp [effectiveOutputPath, h]
  · intro env' h1 h2 h3
    rw [h1, loadChains_blobs_congr ext env env' h2 env.chain_info [] h3]
    exact hload

/-- Witness for C7: the two-chain run with a `full_protein` override. -/
theorem agg_io_paths_witness :
    ∃ r, aggregate_features_across_chains sampleExt env2 "false" "gs://out/pfx" = .ok r ∧
      r.uri = pathJoin (effectiveOutputPath env2 "gs://out/pfx") "all_chain_features.pkl" ∧
      r.written_bucket = bucketOf (effectiveOutputPath env2 "gs://out/pfx") ∧
      r.written_blob = pathJoin (blobDirOf (effectiveOutputPath env2 "gs://out/pfx"))
        "all_chain_features.pkl" ∧
      (env2.full_protein = none → effectiveOutputPath env2 "gs://out/pfx" = "gs://out/pfx") ∧
      (∀ q, env2.full_protein = some q → effectiveOutputPath env2 "gs://out/pfx" = q) ∧
      (∀ env' : Env, env'.chain_info = env2.chain_info →
        env'.paths_info_chains = env2.paths_info_chains →
        (∀ c ∈ env2.chain_info, ∀ p, List.lookup c env2.paths_info_chains = some p →
            env'.blobs (bucketOf p) (chainFeaturesBlob p) =
              env2.blobs (bucketOf p) (chainFeaturesBlob p)) →
        loadChains sampleExt env' env'.chain_info [] = .ok loadedAB) :=
  agg_io_paths sampleExt env2 "false" "gs://out/pfx" loadedAB (by decide) rfl

/-- C8: serializing a feature record and immediately deserializing it
yields the record unchanged — the write-then-read round trip of the
serialization used by aggregation is the identity (the serialization
itself is external `pickle` and is modelled from the spec). -/
theorem feat_record_write_read_roundtrip (r : FeatRec) : writeThenRead r = some r := by
  have h1 := decRow_encRow r.aatype (r.msa.length :: (encRows r.msa ++ [r.num_alignments]))
  have h2 := decRows_encRows r.msa [r.num_alignments]
  simp [writeThenRead, serializeFeatRec, deserializeFeatRec, h1, h2]

/-- Witness for C8: the round trip on a concrete record. -/
theorem feat_record_write_read_roundtrip_witness : writeThenRead recA = some recA :=
  feat_record_write_read_roundtrip recA

/-- C9: the single-chain branch requires the flag to be exactly the
lowercase string `true`: with one chain present, any other flag value
(such as `True` or `1`) runs the pairing-and-padding branch, while the
exact string `true` yields the single chain's record. -/
theorem agg_flag_literal_true_branching
    (ext : Externals) (env : Env) (out c p : String) (f : FeatRec)
    (hinfo : env.chain_info = [c])
    (hkeys : ∀ l, keysOf (ext.add_assembly_features l) = keysOf l)
    (hlk : List.lookup c env.paths_info_chains = some p)
    (hb : env.blobs (bucketOf p) (chainFeaturesBlob p) = some f)
    (hup : env.upload_error = none) :
    (∀ flag, flag ≠ "true" →
      ∃ r, aggregate_features_across_chains ext env flag out = .ok r ∧
        r.np_example = ext.pad_msa (ext.pair_and_merge
          (ext.add_assembly_features [(c, ext.convert_monomer_features f c)])) 512) ∧
    (∃ r, aggregate_features_across_chains ext env "true" out = .ok r ∧
      ∃ g, ext.add_assembly_features [(c, ext.convert_monomer_features f c)] = [(c, g)] ∧
        r.np_example = g) := by
  have hload : loadChains ext env env.chain_info [] =
      .ok [(c, ext.convert_monomer_features f c)] := by
    rw [hinfo]; simp [loadChains, hlk, hb, dictInsert]
  constructor
  · intro flag hflag
    have h1 := aggregate_ok_shape ext env flag out _ hload hup
    rw [if_neg (fun hc => hflag hc.1)] at h1
    exact ⟨_, h1, rfl⟩
  · obtain ⟨g, hg⟩ := keysOf_singleton
      (ext.add_assembly_features [(c, ext.convert_monomer_features f c)]) c
      (by rw [hkeys]; simp [keysOf])
    have h1 := aggregate_ok_shape ext env "true" out _ hload hup
    rw [hg] at h1
    simp only [List.length_cons, List.length_nil, List.head!, Nat.zero_add,
      and_self, if_true] at h1
    exact ⟨_, h1, g, hg, rfl⟩

/-- Witness for C9: with one chain and flag `True` (capitalised), the
pairing-and-padding branch runs. -/
theorem agg_flag_literal_true_branching_witness :
    ∃ r, aggregate_features_across_chains sampleExt env1 "True" "gs://out/pfx" = .ok r ∧
      r.np_example = sampleExt.pad_msa (sampleExt.pair_and_merge
        (sampleExt.add_assembly_features
          [("A", sampleExt.convert_monomer_features recA "A")])) 512 :=
  (agg_flag_literal_true_branching sampleExt env1 "gs://out/pfx" "A"
    "gs://bkt/runs/chainA" recA rfl (fun _ => rfl) (by decide) (by decide) rfl).1
    "True" (by decide)

/-- C10: in the single-chain homomer/monomer branch no 512-depth padding
happens: the written record keeps the converted record's alignment depth,
and the run's outcome does not depend on the padding routine at all. -/
theorem agg_monomer_branch_no_padding
    (ext : Externals) (env : Env) (out c p : String) (f : FeatRec)
    (hinfo : env.chain_info = [c])
    (hkeys : ∀ l, keysOf (ext.add_assembly_features l) = keysOf l)
    (hlk : List.lookup c env.paths_info_chains = some p)
    (hb : env.blobs (bucketOf p) (chainFeaturesBlob p) = some f)
    (hup : env.upload_error = none) :
    ∃ g, ext.add_assembly_features [(c, ext.convert_monomer_features f c)] = [(c, g)] ∧
      ∃ r, aggregate_features_across_chains ext env "true" out = .ok r ∧
        r.np_example.depth = g.depth ∧
        ∀ pad, aggregate_features_across_chains { ext with pad_msa := pad } env "true" out =
          aggregate_features_across_chains ext env "true" out := by
  have hload : loadChains ext env env.chain_info [] =
      .ok [(c, ext.convert_monomer_features f c)] := by
    rw [hinfo]; simp [loadChains, hlk, hb, dictInsert]
  obtain ⟨g, hg⟩ := keysOf_singleton
    (ext.add_assembly_features [(c, ext.convert_monomer_features f c)]) c
    (by rw [hkeys]; simp [keysOf])
  refine ⟨g, hg, ?_⟩
  have h1 := aggregate_ok_shape ext env "true" out _ hload hup
  rw [hg] at h1
  simp only [List.length_cons, List.length_nil, List.head!, Nat.zero_add,
    and_self, if_true] at h1
  refine ⟨_, h1, rfl, ?_⟩
  intro pad
  have hload' : loadChains { ext with pad_msa := pad } env env.chain_info [] =
      .ok [(c, ext.convert_monomer_features f c)] := by
    rw [loadChains_convert_congr ext { ext with pad_msa := pad } env rfl]
    exact hload
  have h2 := aggregate_ok_shape { ext with pad_msa := pad } env "true" out _ hload' hup
  dsimp only at h2
  rw [hg] at h2
  simp only [List.length_cons, List.length_nil, List.head!, Nat.zero_add,
    and_self, if_true] at h2
  rw [h1, h2]

/-- Witness for C10: the concrete single-chain homomer run keeps depth 2
and ignores the padding routine. -/
theorem agg_monomer_branch_no_padding_witness :
    ∃ g, sampleExt.add_assembly_features
        [("A", sampleExt.convert_monomer_features recA "A")] = [("A", g)] ∧
      ∃ r, aggregate_features_across_chains sampleExt env1 "true" "gs://out/pfx" = .ok r ∧
        r.np_example.depth = g.depth ∧
        ∀ pad, aggregate_features_across_chains { sampleExt with pad_msa := pad }
            env1 "true" "gs://out/pfx" =
          aggregate_features_across_chains sampleExt env1 "true" "gs://out/pfx" :=
  agg_monomer_branch_no_padding sampleExt env1 "gs://out/pfx" "A"
    "gs://bkt/runs/chainA" recA rfl (fun _ => rfl) (by decide) (by decide) rfl

end AggregateFeatures
